import Mathlib

/-!
Verification development for the interactive session orchestration engine of
the cli-agent-bot repository.  The TypeScript sources are shallowly embedded:

* `OutputBuffer` (src/session/output-buffer.ts) — size-bounded FIFO of blocks;
* `OutputParser` (src/adapter/claude/output-parser.ts) — classification of raw
  terminal output into blocks (ANSI normalisation, interactive-selection and
  bracketed-confirm detection, error detection);
* `ClaudeSession` (src/session/session.ts) — per-session state machine
  (status, pending confirmation, input queue, adapter handle, buffer);
* `SessionManager` (src/session/manager.ts) — registry of sessions and the
  chat-channel bindings.

JavaScript `Map`s and `Set`s are modelled as insertion-ordered association
lists / lists, matching their iteration-order semantics.  Wall-clock values
(`Date.now()`) are threaded as an explicit `now : Nat` parameter; event-bus
emissions and log output carry no state and are omitted.
-/

namespace CliBot

/-! ### Character and string helpers (JS string primitives) -/

/-- Whitespace characters as matched by the JavaScript `\s` class and by
`String.prototype.trim` (restricted to the code points the sources can see). -/
def isJsSpace (c : Char) : Bool :=
  c = ' ' || c = '\t' || c = '\n' || c = '\r' ||
  c = Char.ofNat 11 || c = Char.ofNat 12 || c = Char.ofNat 0xa0 || c = Char.ofNat 0xfeff

/-- Source `String.prototype.trim` on a character list. -/
def trimL (l : List Char) : List Char :=
  ((l.dropWhile isJsSpace).reverse.dropWhile isJsSpace).reverse

/-- Source `haystack.startsWith needle` on character lists. -/
def startsWithL : List Char → List Char → Bool
  | [], _ => true
  | _ :: _, [] => false
  | a :: as, b :: bs => a = b && startsWithL as bs

/-- Contiguous-substring test on character lists. -/
def containsL (needle : List Char) : List Char → Bool
  | [] => needle.isEmpty
  | c :: rest => startsWithL needle (c :: rest) || containsL needle rest

/-- ASCII lowercasing, as the `/i` regex flag behaves on the ASCII patterns
used by the sources. -/
def lowerL (l : List Char) : List Char := l.map Char.toLower

/-- Case-insensitive contiguous-substring test (JS `/lit/i.test(s)`). -/
def ciContains (hay : String) (needle : String) : Bool :=
  containsL (lowerL needle.data) (lowerL hay.data)

/-- Source `String.prototype.split('\n')` on a character list. -/
def splitLinesAux (acc : List Char) : List Char → List (List Char)
  | [] => [acc.reverse]
  | c :: rest =>
      if c = '\n' then acc.reverse :: splitLinesAux [] rest
      else splitLinesAux (c :: acc) rest

/-- Split a character list at newline characters. -/
def splitLines (l : List Char) : List (List Char) := splitLinesAux [] l

/-- Maximal leading run of ASCII digits together with the remainder. -/
def takeDigits (l : List Char) : List Char × List Char :=
  (l.takeWhile Char.isDigit, l.dropWhile Char.isDigit)

/-- Decimal value of a digit run (`parseInt(s, 10)` on a `\d+` capture). -/
def digitsToNat (l : List Char) : Nat :=
  l.foldl (fun acc c => acc * 10 + (c.toNat - 48)) 0

/-! ### Output blocks (src/core/types.ts)

`OutputBlock` carries a kind, textual content and, for confirm blocks, the
option list and confirmation id.  The `timestamp : Date` field is wall-clock
data with no behavioural role and is omitted from the embedding. -/

/-- Source `OutputType` from src/core/types.ts. -/
inductive OutputType where
  | normal
  | confirm
  | error
  | system
deriving DecidableEq

/-- Source `OutputBlock` from src/core/types.ts (timestamp omitted; the three
optional fields keep their optionality). -/
structure OutputBlock where
  type : OutputType
  content : String
  requiresConfirm : Bool := false
  confirmOptions : Option (List String) := none
  confirmId : Option String := none
deriving DecidableEq

/-! ### Output buffer (src/session/output-buffer.ts) -/

/-- Source `OutputBuffer.estimateSize`: content length plus a fixed 100-byte
per-unit overhead. -/
def estimateSize (b : OutputBlock) : Nat := b.content.length + 100

/-- The `OutputBuffer` class state: the queue, the tracked cumulative size and
the configured cap. -/
structure OutputBuffer where
  buffer : List OutputBlock
  totalSize : Nat
  maxSize : Nat
deriving DecidableEq

/-- A freshly constructed `OutputBuffer` with cap `maxSize`. -/
def OutputBuffer.mkEmpty (maxSize : Nat) : OutputBuffer :=
  { buffer := [], totalSize := 0, maxSize := maxSize }

/-- The eviction loop inside `OutputBuffer.append`: while the tracked size
plus the incoming block's size exceeds the cap and the queue is non-empty,
shift the oldest block and subtract its estimated size. -/
def evictLoop (maxSize blockSize : Nat) : List OutputBlock → Nat → List OutputBlock × Nat
  | [], total => ([], total)
  | b :: rest, total =>
      if maxSize < total + blockSize then
        evictLoop maxSize blockSize rest (total - estimateSize b)
      else (b :: rest, total)

/-- Source `OutputBuffer.append`: evict oldest-first until the new block fits, then
push it and add its size. -/
def OutputBuffer.append (buf : OutputBuffer) (block : OutputBlock) : OutputBuffer :=
  let blockSize := estimateSize block
  let p := evictLoop buf.maxSize blockSize buf.buffer buf.totalSize
  { buf with buffer := p.1 ++ [block], totalSize := p.2 + blockSize }

/-- Source `OutputBuffer.fetchAndClear`: return the queue and reset. -/
def OutputBuffer.fetchAndClear (buf : OutputBuffer) : List OutputBlock × OutputBuffer :=
  (buf.buffer, { buf with buffer := [], totalSize := 0 })

/-- Sum of the estimated sizes of a list of blocks. -/
def sumSizes (l : List OutputBlock) : Nat := (l.map estimateSize).sum

/-- Representation invariant of `OutputBuffer`: the tracked `totalSize` is the
sum of the estimated sizes of the queued blocks (the constructor establishes
it and, as proved below, `append` maintains it). -/
def bufWF (buf : OutputBuffer) : Prop := buf.totalSize = sumSizes buf.buffer

/-- A sequence of `append`s applied to a fresh buffer with cap `c`. -/
def appendAll (c : Nat) (blocks : List OutputBlock) : OutputBuffer :=
  blocks.foldl OutputBuffer.append (OutputBuffer.mkEmpty c)

/-! ### Output parser (src/adapter/claude/output-parser.ts)

The parser is stateless; every regex used by the source is embedded as an
executable scanner over character lists.  `Date.now()`-derived ids take the
wall clock as an explicit `now` parameter. -/

namespace OutputParser

/-- Match `ESC [ <digits> ; <digits> (H|f)` at the head of the list,
returning row, column and the remainder. -/
def matchCursorHf : List Char → Option (Nat × Nat × List Char)
  | '\x1b' :: '[' :: rest =>
      let p := takeDigits rest
      if p.1.isEmpty then none
      else
        match p.2 with
        | ';' :: r2 =>
            let q := takeDigits r2
            if q.1.isEmpty then none
            else
              match q.2 with
              | c :: r4 =>
                  if c = 'H' || c = 'f' then some (digitsToNat p.1, digitsToNat q.1, r4)
                  else none
              | [] => none
        | _ => none
  | _ => none

/-- First `stripAnsi` pass: absolute cursor-positioning sequences become line
breaks plus indentation, tracking the current row across matches exactly as
the source's replace callback does. -/
def passCursorHf : Nat → Nat → List Char → List Char
  | 0, _, l => l
  | _ + 1, _, [] => []
  | fuel + 1, curLine, c :: rest =>
      match matchCursorHf (c :: rest) with
      | some (row, col, r) =>
          if curLine < row then
            List.replicate (row - curLine) '\n' ++
              (if 1 < col then List.replicate (col - 1) ' ' else []) ++
              passCursorHf fuel row r
          else if row = curLine ∧ 1 < col then
            List.replicate (col - 1) ' ' ++ passCursorHf fuel curLine r
          else passCursorHf fuel curLine r
      | none => c :: passCursorHf fuel curLine rest

/-- Match `ESC [ <digits> <endCh>` at the head of the list. -/
def matchEscNum (endCh : Char) : List Char → Option (Nat × List Char)
  | '\x1b' :: '[' :: rest =>
      let p := takeDigits rest
      if p.1.isEmpty then none
      else
        match p.2 with
        | c :: r => if c = endCh then some (digitsToNat p.1, r) else none
        | [] => none
  | _ => none

/-- Replace every `ESC [ <n> <endCh>` by `n` copies of `repCh` (the passes
for cursor-forward `C`, insert `@` and cursor-down `B`). -/
def passRep (endCh repCh : Char) : Nat → List Char → List Char
  | 0, l => l
  | _ + 1, [] => []
  | fuel + 1, c :: rest =>
      match matchEscNum endCh (c :: rest) with
      | some (n, r) => List.replicate n repCh ++ passRep endCh repCh fuel r
      | none => c :: passRep endCh repCh fuel rest

/-- Characters allowed in a CSI parameter position (`[0-9;?]`). -/
def isCsiParam (c : Char) : Bool := c.isDigit || c = ';' || c = '?'

/-- Matcher for the CSI removal regex `ESC [ [0-9;?]* <letter>`. -/
def mCsi : List Char → Option (List Char)
  | '\x1b' :: '[' :: rest =>
      match rest.dropWhile isCsiParam with
      | c :: r2 => if c.isAlpha then some r2 else none
      | [] => none
  | _ => none

/-- Matcher for the OSC removal regex `ESC ] [^BEL]* BEL`. -/
def mOscBel : List Char → Option (List Char)
  | '\x1b' :: ']' :: rest =>
      match rest.dropWhile (fun c => c != '\x07') with
      | _ :: r2 => some r2
      | [] => none
  | _ => none

/-- Matcher for the OSC removal regex `ESC ] [^ESC]* (ESC \)?`. -/
def mOscSt : List Char → Option (List Char)
  | '\x1b' :: ']' :: rest =>
      match rest.dropWhile (fun c => c != '\x1b') with
      | '\x1b' :: '\\' :: r2 => some r2
      | r => some r
  | _ => none

/-- Matcher for the charset removal regex `ESC [()] [A-Za-z0-9]`. -/
def mCharset : List Char → Option (List Char)
  | '\x1b' :: p :: a :: r =>
      if (p = '(' || p = ')') && a.isAlphanum then some r else none
  | _ => none

/-- Matcher for the removal regex `ESC [)[\]A-Za-z]`. -/
def mEscOne : List Char → Option (List Char)
  | '\x1b' :: c :: r =>
      if c = ')' || c = '[' || c = ']' || c.isAlpha then some r else none
  | _ => none

/-- Matcher for the hyperlink removal regex `ESC ] 8 ; ; [^ESC]* ESC \`. -/
def mLink : List Char → Option (List Char)
  | '\x1b' :: ']' :: '8' :: ';' :: ';' :: rest =>
      match rest.dropWhile (fun c => c != '\x1b') with
      | '\x1b' :: '\\' :: r2 => some r2
      | _ => none
  | _ => none

/-- Matcher for the SGR removal regex `ESC [ [\d;]* m`. -/
def mSgr : List Char → Option (List Char)
  | '\x1b' :: '[' :: rest =>
      match rest.dropWhile (fun c => c.isDigit || c = ';') with
      | 'm' :: r2 => some r2
      | _ => none
  | _ => none

/-- Global-replace-by-empty of one matcher, scanning left to right as a JS
`String.replace(re, '')` with the `g` flag does. -/
def removeAll (m : List Char → Option (List Char)) : Nat → List Char → List Char
  | 0, l => l
  | _ + 1, [] => []
  | fuel + 1, c :: rest =>
      match m (c :: rest) with
      | some r => removeAll m fuel r
      | none => c :: removeAll m fuel rest

/-- Control characters stripped by the last pass (`[\x00-\x08\x0b\x0c\x0e-\x1f]`:
everything below 0x20 except newline, tab and carriage return). -/
def isStrippedControl (c : Char) : Bool :=
  c.toNat ≤ 8 || c.toNat = 11 || c.toNat = 12 || (14 ≤ c.toNat && c.toNat ≤ 31)

/-- Source `OutputParser.stripAnsi` on a character list: cursor-sequence
normalisation, the seven removal regexes in source order, then the control
character filter. -/
def stripAnsiL (l : List Char) : List Char :=
  let r0 := passCursorHf (l.length + 1) 0 l
  let r1 := passRep 'C' ' ' (r0.length + 1) r0
  let r2 := passRep '@' ' ' (r1.length + 1) r1
  let r3 := passRep 'B' '\n' (r2.length + 1) r2
  let r4 := removeAll mCsi (r3.length + 1) r3
  let r5 := removeAll mOscBel (r4.length + 1) r4
  let r6 := removeAll mOscSt (r5.length + 1) r5
  let r7 := removeAll mCharset (r6.length + 1) r6
  let r8 := removeAll mEscOne (r7.length + 1) r7
  let r9 := removeAll mLink (r8.length + 1) r8
  let r10 := removeAll mSgr (r9.length + 1) r9
  r10.filter (fun c => !(isStrippedControl c))

/-- Source `OutputParser.stripAnsi` on strings. -/
def stripAnsi (s : String) : String := ⟨stripAnsiL s.data⟩

/-- Case-insensitive substring test on character lists. -/
def ciContainsL (hay needle : List Char) : Bool :=
  containsL (lowerL needle) (lowerL hay)

/-- The literal `don't ask` (apostrophe written via its code point). -/
def dontAskNeedle : List Char := "don".data ++ [Char.ofNat 39] ++ "t ask".data

/-- The free-text-input exclusion test
`/don't ask|ctrl\+t|shift\+tab|tab to cycle/i`. -/
def freeTextHintL (s : List Char) : Bool :=
  ciContainsL s dontAskNeedle || ciContainsL s "ctrl+t".data ||
  ciContainsL s "shift+tab".data || ciContainsL s "tab to cycle".data

/-- One line of the `/Press .* to select/i` test: an occurrence of
`press ` followed, within the same line, by ` to select` (the input is
already lowercased). -/
def lineHasPressSelect : List Char → Bool
  | [] => false
  | c :: rest =>
      (startsWithL "press ".data (c :: rest) && containsL " to select".data (rest.drop 5)) ||
      lineHasPressSelect rest

/-- The `/Press .* to select/i` test (a dot does not cross line breaks). -/
def pressToSelect (s : List Char) : Bool :=
  (splitLines (lowerL s)).any lineHasPressSelect

/-- The selection-hint test `hasConfirmHint` of `detectInteractiveSelect`. -/
def hasConfirmHintL (s : List Char) : Bool :=
  ciContainsL s "Enter to confirm".data || ciContainsL s "Press Enter".data ||
  ciContainsL s "to confirm".data ||
  ciContainsL s "Esc to cancel".data || ciContainsL s "to cancel".data ||
  ciContainsL s "use keys".data || ciContainsL s "use arrow keys".data ||
  ciContainsL s "use ↑↓ keys".data ||
  pressToSelect s

/-- The marker characters of the arrow option pattern `[❯►→>]`. -/
def isArrowMarker (c : Char) : Bool := c = '❯' || c = '►' || c = '→' || c = '>'

/-- Tail capture `\s*(.+)$` of the option patterns: greedily drop whitespace
and capture the non-empty rest; when only whitespace remains the `.+`
backtracks onto the final character. -/
def groupRest (t : List Char) : Option (List Char) :=
  let dw := t.dropWhile isJsSpace
  if dw.isEmpty then
    match t.reverse with
    | [] => none
    | last :: _ => some [last]
  else some dw

/-- The arrow option pattern `/^\s*[❯►→>]\s*(.+)$/` (capture group 1). -/
def arrowMatch (l : List Char) : Option (List Char) :=
  match l.dropWhile isJsSpace with
  | [] => none
  | c :: t => if isArrowMarker c then groupRest t else none

/-- The numbered option pattern `/^\s*(\d+)[.)\]]\s*(.+)$/` (both groups). -/
def numberedMatch (l : List Char) : Option (List Char × List Char) :=
  let l1 := l.dropWhile isJsSpace
  let p := takeDigits l1
  if p.1.isEmpty then none
  else
    match p.2 with
    | c :: t =>
        if c = '.' || c = ')' || c = ']' then (groupRest t).map (fun g => (p.1, g))
        else none
    | [] => none

/-- The embedded-number pattern `/^(\d+)\.\s*(.+)$/` applied to an arrow
option's text. -/
def numDotMatch (l : List Char) : Option (List Char × List Char) :=
  let p := takeDigits l
  if p.1.isEmpty then none
  else
    match p.2 with
    | '.' :: t => (groupRest t).map (fun g => (p.1, g))
    | _ => none

/-- The indentation test `/^\s{2,}/` on the raw (untrimmed) line. -/
def leadTwoSpace : List Char → Bool
  | a :: b :: _ => isJsSpace a && isJsSpace b
  | _ => false

/-- The plain-option exclusion `/Enter to confirm|Esc to cancel/i`. -/
def enterEscFilter (s : List Char) : Bool :=
  ciContainsL s "Enter to confirm".data || ciContainsL s "Esc to cancel".data

/-- One option's confirm-keyword test
`/yes|no|confirm|cancel|proceed|abort|continue|exit/i`. -/
def confirmKeywordL (o : List Char) : Bool :=
  ciContainsL o "yes".data || ciContainsL o "no".data || ciContainsL o "confirm".data ||
  ciContainsL o "cancel".data || ciContainsL o "proceed".data || ciContainsL o "abort".data ||
  ciContainsL o "continue".data || ciContainsL o "exit".data

/-- Source `hasConfirmKeywords`: some collected option text lexically resembles a
confirm/cancel choice. -/
def hasConfirmKeywordsL (opts : List (List Char)) : Bool :=
  opts.any confirmKeywordL

/-- The backward prompt search: nearest preceding non-empty line that is
neither an arrow option nor a numbered option (previous lines in reverse). -/
def findPrompt : List (List Char) → List Char
  | [] => []
  | p :: rest =>
      let pl := trimL p
      if !pl.isEmpty && (arrowMatch pl).isNone && (numberedMatch pl).isNone then pl
      else findPrompt rest

/-- Mutable loop state of `detectInteractiveSelect` (the unused
`foundInteractive` flag is dropped: it does not influence the result). -/
structure SelScanState where
  options : List (List Char)
  selectedIndex : Nat
  promptText : List Char
  foundArrow : Bool
deriving DecidableEq

/-- The line scan of `detectInteractiveSelect`: arrow options, then (once an
arrow was seen) trailing numbered or indented options, else (with a hint
phrase present) plain numbered options.  `prevRev` holds the already
processed raw lines in reverse for the prompt search. -/
def selScan (hint : Bool) : List (List Char) → List (List Char) → SelScanState → SelScanState
  | _, [], st => st
  | prevRev, line :: rest, st =>
      let cleanLine := trimL line
      if cleanLine.isEmpty then selScan hint (line :: prevRev) rest st
      else
        match arrowMatch cleanLine with
        | some g1 =>
            let ot := trimL g1
            let optionText :=
              match numDotMatch ot with
              | some p => trimL p.2
              | none => ot
            let newOptions := st.options ++ [optionText]
            selScan hint (line :: prevRev) rest
              { options := newOptions
                selectedIndex := newOptions.length - 1
                promptText := if st.promptText.isEmpty then findPrompt prevRev else st.promptText
                foundArrow := true }
        | none =>
            if st.foundArrow then
              match numberedMatch cleanLine with
              | some p =>
                  selScan hint (line :: prevRev) rest { st with options := st.options ++ [trimL p.2] }
              | none =>
                  if leadTwoSpace line && !enterEscFilter cleanLine then
                    selScan hint (line :: prevRev) rest { st with options := st.options ++ [cleanLine] }
                  else selScan hint (line :: prevRev) rest st
            else
              if hint then
                match numberedMatch cleanLine with
                | some p =>
                    selScan hint (line :: prevRev) rest { st with options := st.options ++ [trimL p.2] }
                | none => selScan hint (line :: prevRev) rest st
              else selScan hint (line :: prevRev) rest st

/-- Source `InteractiveSelect` from the parser module. -/
structure InteractiveSelect where
  id : String
  prompt : String
  options : List String
  selectedIndex : Nat
deriving DecidableEq

/-- The fallback prompt text used when no prompt line was found. -/
def defaultPromptText : String := "请选择一个选项"

/-- Source `OutputParser.detectInteractiveSelect`: free-text inputs are excluded
up front; the collected options form a selection only when there are at
least two of them and either a hint phrase or a confirm-looking option. -/
def detectInteractiveSelect (data : String) (now : Nat) : Option InteractiveSelect :=
  let cleanData := stripAnsiL data.data
  if freeTextHintL cleanData then none
  else
    let hint := hasConfirmHintL cleanData
    let st := selScan hint [] (splitLines cleanData) ⟨[], 0, [], false⟩
    if 2 ≤ st.options.length ∧ (hint = true ∨ hasConfirmKeywordsL st.options = true) then
      some { id := "interactive_" ++ toString now
             prompt := if st.promptText.isEmpty then defaultPromptText else ⟨st.promptText⟩
             options := st.options.map (fun o => (⟨o⟩ : String))
             selectedIndex := st.selectedIndex }
    else none

/-- The per-option lines of `formatInteractiveSelect`. -/
def formatOptionLines (selIdx : Nat) : Nat → List String → String
  | _, [] => ""
  | i, o :: rest =>
      (if i = selIdx then "▶ " else "   ") ++ toString (i + 1) ++ ". " ++ o ++ "\n" ++
        formatOptionLines selIdx (i + 1) rest

/-- The horizontal separator of `formatInteractiveSelect`. -/
def sepLine : String := ⟨List.replicate 30 '━'⟩

/-- Source `OutputParser.formatInteractiveSelect`: the human-readable rendering of a
detected selection. -/
def formatInteractiveSelect (sel : InteractiveSelect) : String :=
  sepLine ++ "\n" ++ "📋 " ++ sel.prompt ++ "\n" ++ sepLine ++ "\n\n" ++
  "请回复选项编号（1-" ++ toString sel.options.length ++ "）或选项内容：\n\n" ++
  formatOptionLines sel.selectedIndex 0 sel.options ++
  "\n💡 提示：直接发送数字（如 \"1\"）或选项内容即可选择"

/-- Match `[<digits>-<digits>]` at the head of the list. -/
def matchBracketRange : List Char → Option (Nat × Nat)
  | '[' :: rest =>
      let p := takeDigits rest
      if p.1.isEmpty then none
      else
        match p.2 with
        | '-' :: r2 =>
            let q := takeDigits r2
            if q.1.isEmpty then none
            else
              match q.2 with
              | ']' :: _ => some (digitsToNat p.1, digitsToNat q.1)
              | _ => none
        | _ => none
  | _ => none

/-- Leftmost match of the range pattern `/\[(\d+)-(\d+)\]/`. -/
def findBracketRange : List Char → Option (Nat × Nat)
  | [] => none
  | c :: rest =>
      match matchBracketRange (c :: rest) with
      | some p => some p
      | none => findBracketRange rest

/-- Expansion of `[m-n]` into the option strings `m`, `m+1`, …, `n`. -/
def rangeOptions (a b : Nat) : List String :=
  (List.range (b + 1 - a)).map (fun i => toString (a + i))

/-- Source `OutputParser.detectConfirmPrompt`: the fixed bracketed patterns, in the
source's order of checks. -/
def detectConfirmPrompt (data : String) (now : Nat) : Option (List String × String) :=
  let c := stripAnsiL data.data
  let cid := "confirm_" ++ toString now
  if ciContainsL c "[y/n]".data then some (["Y", "N"], cid)
  else if ciContainsL c "[yes/no]".data then some (["Yes", "No"], cid)
  else
    match findBracketRange c with
    | some p => some (rangeOptions p.1 p.2, cid)
    | none =>
        if ciContainsL c "[continue]".data || ciContainsL c "[cancel]".data then
          some (["Continue", "Cancel"], cid)
        else if ciContainsL c "[proceed]".data || ciContainsL c "[abort]".data then
          some (["Proceed", "Abort"], cid)
        else none

/-- Source `OutputParser.detectError`: the fixed error-signal patterns (the two
anchored ones test line starts, the rest are case-insensitive substrings). -/
def detectError (data : String) : Bool :=
  let c := stripAnsiL data.data
  (splitLines c).any (fun l => startsWithL "Error:".data l || startsWithL "ERROR:".data l) ||
  ciContainsL c "failed to:".data || ciContainsL c "exception:".data ||
  ciContainsL c "command not found".data || ciContainsL c "permission denied".data

/-- Source `OutputParser.parse`: interactive selection first, then bracketed confirm,
then error/normal classification of the stripped text; empty stripped text
yields no blocks. -/
def parse (data : String) (now : Nat) : List OutputBlock :=
  match detectInteractiveSelect data now with
  | some sel =>
      [{ type := .confirm, content := ⟨trimL (formatInteractiveSelect sel).data⟩,
         requiresConfirm := true, confirmOptions := some sel.options, confirmId := some sel.id }]
  | none =>
      match detectConfirmPrompt data now with
      | some p =>
          [{ type := .confirm, content := ⟨trimL (stripAnsiL data.data)⟩,
             requiresConfirm := true, confirmOptions := some p.1, confirmId := some p.2 }]
      | none =>
          let cleanContent : List Char := trimL (stripAnsiL data.data)
          if cleanContent.isEmpty then []
          else
            [{ type := if detectError data then OutputType.error else OutputType.normal,
               content := ⟨cleanContent⟩ }]

end OutputParser

/-! ### Session state machine (src/session/session.ts)

`ClaudeSession` is embedded as a record of its mutable fields; each method
becomes a function from the pre-state to the post-state (mutations performed
before a `throw` are kept, mutations after it never happen).  The adapter
handle records which CLI tool and executable it was created for.  Events,
logging and the `Date` fields (`createdAt`, `lastActiveAt`) are omitted. -/

/-- Source `SessionStatus` from src/core/types.ts. -/
inductive SessionStatus where
  | idle
  | processing
  | waitingConfirm
  | error
deriving DecidableEq

/-- The `pendingConfirm` record of a session. -/
structure PendingConfirm where
  id : String
  options : List String
deriving DecidableEq

/-- The adapter handle a session owns while started: which tool's launch
protocol created it and with which executable. -/
structure AdapterSpec where
  tool : String
  executable : String
deriving DecidableEq

/-- The mutable state of a `ClaudeSession`. -/
structure SessionState where
  name : String
  workDir : String
  status : SessionStatus
  adapter : Option AdapterSpec
  buffer : OutputBuffer
  pendingConfirm : Option PendingConfirm
  inputQueue : List String
deriving DecidableEq

/-- A freshly constructed session (constructor of `ClaudeSession`). -/
def initialSession (name workDir : String) (bufferSize : Nat) : SessionState :=
  { name := name, workDir := workDir, status := .idle, adapter := none,
    buffer := OutputBuffer.mkEmpty bufferSize, pendingConfirm := none, inputQueue := [] }

/-- JavaScript `a || d` on an optional string (the empty string is falsy). -/
def jsOrStr (s : Option String) (d : String) : String :=
  match s with
  | some v => if v = "" then d else v
  | none => d

/-- Source `ClaudeSession.handleOutput`: Normal and Error blocks are buffered;
a Confirm block moves the session to WaitingConfirm and stores the pending
confirmation (the switch has no case for System blocks). -/
def ClaudeSession.handleOutput (s : SessionState) (block : OutputBlock) (now : Nat) :
    SessionState :=
  match block.type with
  | .normal => { s with buffer := s.buffer.append block }
  | .confirm =>
      { s with status := .waitingConfirm,
               pendingConfirm := some
                 { id := jsOrStr block.confirmId ("confirm_" ++ toString now),
                   options := block.confirmOptions.getD [] } }
  | .error => { s with buffer := s.buffer.append block }
  | .system => s

/-- The synthetic Error block appended by `handleExit` on a non-zero exit. -/
def processExitBlock (code : Int) : OutputBlock :=
  { type := .error, content := "Process exited with code " ++ toString code }

/-- Source `ClaudeSession.handleExit`: non-zero code gives status Error plus a
buffered synthetic Error block; code zero gives status Idle; the adapter
reference is cleared either way.  The pending confirmation is not touched. -/
def ClaudeSession.handleExit (s : SessionState) (code : Int) : SessionState :=
  if code ≠ 0 then
    { s with status := .error, buffer := s.buffer.append (processExitBlock code),
             adapter := none }
  else { s with status := .idle, adapter := none }

/-- Source `ClaudeSession.sendConfirmResponse`: a no-op without a pending
confirmation; otherwise clear it and move to Processing. -/
def ClaudeSession.sendConfirmResponse (s : SessionState) : SessionState :=
  match s.pendingConfirm with
  | none => s
  | some _ => { s with pendingConfirm := none, status := .processing }

/-- Source `ClaudeSession.sendInput` followed by the synchronous
`processInputQueue` drain: without an adapter the call throws and changes
nothing; otherwise the input is enqueued, status becomes Processing and the
queue is drained to the adapter. -/
def ClaudeSession.sendInputPost (s : SessionState) (_input : String) : SessionState :=
  if s.adapter.isNone then s
  else { s with inputQueue := [], status := .processing }

/-- The adapter's idle signal: demotes Processing to Idle. -/
def ClaudeSession.handleIdle (s : SessionState) : SessionState :=
  if s.status = .processing then { s with status := .idle } else s

/-- Source `ClaudeSession.close`: clears the adapter and resets status to Idle. -/
def ClaudeSession.closePost (s : SessionState) : SessionState :=
  { s with adapter := none, status := .idle }

/-- The possible outcomes of the asynchronous part of `start`: a successful
warm-up, a failure before the adapter is assigned (missing work directory or
unregistered tool), or an early process exit during warm-up — which the
claude adapter turns into a rejection while the opencode adapter resolves
anyway.  In both early-exit cases the exit event has already run
`handleExit`. -/
inductive StartOutcome where
  | ok
  | preFail
  | warmupExit (code : Int)
  | warmupExitResolved (code : Int)
deriving DecidableEq

/-- Errors `ClaudeSession.start` can throw. -/
inductive StartErr where
  | alreadyStarted
  | startFailure
deriving DecidableEq

/-- The CLI tools registered with the adapter registry. -/
def registeredTools : List String := ["claude", "opencode"]

/-- Source `ClaudeSession.start`: rejected outright when an adapter is already
present; otherwise the adapter is created for `tool` and the warm-up outcome
decides the final state (the catch block sets status Error on any failure). -/
def ClaudeSession.startPost (s : SessionState) (tool executable : String) (o : StartOutcome) :
    Option StartErr × SessionState :=
  if s.adapter.isSome then (some .alreadyStarted, s)
  else if registeredTools.contains tool then
    match o with
    | .ok => (none, { s with adapter := some ⟨tool, executable⟩, status := .idle })
    | .preFail => (some .startFailure, { s with status := .error })
    | .warmupExit code =>
        let s1 := ClaudeSession.handleExit { s with adapter := some ⟨tool, executable⟩ } code
        (some .startFailure, { s1 with status := .error })
    | .warmupExitResolved code =>
        let s1 := ClaudeSession.handleExit { s with adapter := some ⟨tool, executable⟩ } code
        (none, { s1 with status := .idle })
  else (some .startFailure, { s with status := .error })

/-- The session states reachable from a fresh session by any sequence of
session operations (start with any outcome, queued input, confirm responses,
classified output blocks, idle signals, process exits, close). -/
inductive Reachable : SessionState → Prop where
  | init (name workDir : String) (bufferSize : Nat) :
      Reachable (initialSession name workDir bufferSize)
  | start (s : SessionState) (tool executable : String) (o : StartOutcome) :
      Reachable s → Reachable (ClaudeSession.startPost s tool executable o).2
  | sendInput (s : SessionState) (input : String) :
      Reachable s → Reachable (ClaudeSession.sendInputPost s input)
  | confirmResponse (s : SessionState) :
      Reachable s → Reachable (ClaudeSession.sendConfirmResponse s)
  | output (s : SessionState) (block : OutputBlock) (now : Nat) :
      Reachable s → Reachable (ClaudeSession.handleOutput s block now)
  | idleSignal (s : SessionState) :
      Reachable s → Reachable (ClaudeSession.handleIdle s)
  | exit (s : SessionState) (code : Int) :
      Reachable s → Reachable (ClaudeSession.handleExit s code)
  | close (s : SessionState) :
      Reachable s → Reachable (ClaudeSession.closePost s)

/-! ### Session registry / channel router (src/session/manager.ts)

JavaScript `Map`s are insertion-ordered association lists (`Map.set` updates
in place, a new key is appended); `Set`s are duplicate-free lists in
insertion order. -/

/-- Source `Map.get` on an association list. -/
def lookupA {α : Type} : List (String × α) → String → Option α
  | [], _ => none
  | (k', v) :: rest, k => if k' = k then some v else lookupA rest k

/-- Source `Map.set` on an association list: update in place, or append a new key. -/
def setA {α : Type} : List (String × α) → String → α → List (String × α)
  | [], k, v => [(k, v)]
  | (k', v') :: rest, k, v =>
      if k' = k then (k, v) :: rest else (k', v') :: setA rest k v

/-- Source `Map.delete` on an association list. -/
def eraseA {α : Type} : List (String × α) → String → List (String × α)
  | [], _ => []
  | (k', v') :: rest, k => if k' = k then rest else (k', v') :: eraseA rest k

/-- Source `Set.add`: no-op when present, else append. -/
def addS (l : List String) (x : String) : List String :=
  if l.contains x then l else l ++ [x]

/-- The slice of `AppConfig` the manager operations read (the optional
fields mirror `cli.default` and the per-tool `executable` entries). -/
structure ManagerConfig where
  maxSessions : Nat
  bufferSize : Nat
  defaultTool : Option String
  claudeExecutable : Option String
  opencodeExecutable : Option String
deriving DecidableEq

/-- Source `cliTool || cliConfig?.default || 'claude'` with the explicit argument
absent: the configured default tool. -/
def resolveDefaultTool (cfg : ManagerConfig) : String :=
  jsOrStr cfg.defaultTool "claude"

/-- Source `cliTool || cliConfig?.default || 'claude'`. -/
def resolveTool (cfg : ManagerConfig) (cliTool : Option String) : String :=
  jsOrStr cliTool (resolveDefaultTool cfg)

/-- Source `currentCliConfig?.executable || defaultCliTool`. -/
def resolveExecutable (cfg : ManagerConfig) (tool : String) : String :=
  jsOrStr (if tool = "opencode" then cfg.opencodeExecutable else cfg.claudeExecutable) tool

/-- The mutable state of `SessionManager`. -/
structure ManagerState where
  sessions : List (String × SessionState)
  chatSessions : List (String × List String)
  chatActiveSession : List (String × String)
  activeSession : Option String
deriving DecidableEq

/-- A freshly constructed manager. -/
def ManagerState.empty : ManagerState := ⟨[], [], [], none⟩

/-- Errors thrown by the manager operations. -/
inductive MgrErr where
  | capacityExceeded
  | alreadyExists
  | notFound
  | restartRejected
  | startFailed (e : StartErr)
deriving DecidableEq

/-- Source `SessionManager.createSession`: capacity check, then name-uniqueness
check; then the session is registered and bound to the chat (made its active
session) before `start` runs; a `start` failure propagates but leaves the
registration in place with the failed session state. -/
def SessionManager.createSession (m : ManagerState) (cfg : ManagerConfig)
    (name workDir chatId : String) (cliTool : Option String) (o : StartOutcome) :
    Option MgrErr × ManagerState :=
  if cfg.maxSessions ≤ m.sessions.length then (some .capacityExceeded, m)
  else if (lookupA m.sessions name).isSome then (some .alreadyExists, m)
  else
    let tool := resolveTool cfg cliTool
    let executable := resolveExecutable cfg tool
    let sess := initialSession name workDir cfg.bufferSize
    let curSet := (lookupA m.chatSessions chatId).getD []
    let m1 : ManagerState :=
      { sessions := setA m.sessions name sess
        chatSessions := setA m.chatSessions chatId (addS curSet name)
        chatActiveSession := setA m.chatActiveSession chatId name
        activeSession := some name }
    let r := ClaudeSession.startPost sess tool executable o
    let m2 := { m1 with sessions := setA m1.sessions name r.2 }
    match r.1 with
    | none => (none, m2)
    | some e => (some (.startFailed e), m2)

/-- Source `SessionManager.restartSession`: missing name throws NotFound, a session
whose status is not Error throws a restart rejection; otherwise the launch
protocol is re-invoked via `start` — with the tool resolved from the
configuration default, not from how the session was originally created. -/
def SessionManager.restartSession (m : ManagerState) (cfg : ManagerConfig)
    (name : String) (o : StartOutcome) : Option MgrErr × ManagerState :=
  match lookupA m.sessions name with
  | none => (some .notFound, m)
  | some sess =>
      if sess.status ≠ .error then (some .restartRejected, m)
      else
        let tool := resolveDefaultTool cfg
        let executable := resolveExecutable cfg tool
        let r := ClaudeSession.startPost sess tool executable o
        let m1 := { m with sessions := setA m.sessions name r.2 }
        match r.1 with
        | none => (none, m1)
        | some e => (some (.startFailed e), m1)

/-- The per-chat loop of `closeSession`: delete the name from every chat's
session set and, where it was the chat's active session, promote the first
remaining bound session or clear the binding. -/
def closeChatLoop (name : String) :
    List (String × List String) → List (String × String) →
    List (String × List String) × List (String × String)
  | [], act => ([], act)
  | (chatId, ss) :: rest, act =>
      let ss' := ss.erase name
      let act' :=
        if lookupA act chatId = some name then
          match ss' with
          | [] => eraseA act chatId
          | first :: _ => setA act chatId first
        else act
      let r := closeChatLoop name rest act'
      ((chatId, ss') :: r.1, r.2)

/-- Source `findAnyActiveSession`: the first value of the chat→active map. -/
def findAnyActive (act : List (String × String)) : Option String :=
  match act with
  | [] => none
  | (_, n) :: _ => some n

/-- Source `SessionManager.closeSession`: remove the session, run the per-chat
unbinding/promotion loop, and refresh the global active session. -/
def SessionManager.closeSession (m : ManagerState) (name : String) :
    Option MgrErr × ManagerState :=
  match lookupA m.sessions name with
  | none => (some .notFound, m)
  | some _ =>
      let p := closeChatLoop name m.chatSessions m.chatActiveSession
      let newActive :=
        if m.activeSession = some name then findAnyActive p.2 else m.activeSession
      (none, { sessions := eraseA m.sessions name
               chatSessions := p.1
               chatActiveSession := p.2
               activeSession := newActive })

/-! ### Lemmas about the output buffer -/

theorem sumSizes_nil : sumSizes [] = 0 := rfl

theorem sumSizes_cons (b : OutputBlock) (l : List OutputBlock) :
    sumSizes (b :: l) = estimateSize b + sumSizes l := by
  simp [sumSizes]

theorem sumSizes_append (l₁ l₂ : List OutputBlock) :
    sumSizes (l₁ ++ l₂) = sumSizes l₁ + sumSizes l₂ := by
  simp [sumSizes]

/-- The eviction loop drops a prefix of the queue and, starting from a
truthful size, reports the truthful size of what remains, which either fits
together with the incoming block or is everything (empty remainder). -/
theorem evictLoop_spec (maxSize blockSize : Nat) :
    ∀ (l : List OutputBlock) (total : Nat), total = sumSizes l →
      ∃ k, evictLoop maxSize blockSize l total = (l.drop k, sumSizes (l.drop k)) ∧
        (sumSizes (l.drop k) + blockSize ≤ maxSize ∨ l.drop k = []) := by
  intro l
  induction l with
  | nil =>
      intro total ht
      refine ⟨0, ?_, Or.inr rfl⟩
      simp [evictLoop, ht, sumSizes_nil]
  | cons b rest ih =>
      intro total ht
      rw [evictLoop]
      by_cases hgt : maxSize < total + blockSize
      · rw [if_pos hgt]
        have hrest : total - estimateSize b = sumSizes rest := by
          rw [ht, sumSizes_cons]; omega
        obtain ⟨k, hk, hor⟩ := ih (total - estimateSize b) hrest
        exact ⟨k + 1, by simpa using hk, by simpa using hor⟩
      · rw [if_neg hgt]
        exact ⟨0, by simp [ht], Or.inl (by rw [List.drop_zero, ← ht]; omega)⟩

/-- The eviction loop always returns a suffix of the queue, truthful sizes or
not. -/
theorem evictLoop_suffix (maxSize blockSize : Nat) :
    ∀ (l : List OutputBlock) (total : Nat),
      ∃ k, (evictLoop maxSize blockSize l total).1 = l.drop k := by
  intro l
  induction l with
  | nil => intro total; exact ⟨0, rfl⟩
  | cons b rest ih =>
      intro total
      rw [evictLoop]
      by_cases hgt : maxSize < total + blockSize
      · rw [if_pos hgt]
        obtain ⟨k, hk⟩ := ih (total - estimateSize b)
        exact ⟨k + 1, by simpa using hk⟩
      · rw [if_neg hgt]
        exact ⟨0, rfl⟩

/-- Source `append` on a well-formed buffer: the result is well formed, the cap is
unchanged, eviction removed a prefix (oldest-first), the resulting size is
bounded by the cap unless the single new block already exceeds it, and an
oversized block empties the buffer for itself. -/
theorem append_spec (buf : OutputBuffer) (block : OutputBlock) (hwf : bufWF buf) :
    bufWF (buf.append block) ∧
    (buf.append block).maxSize = buf.maxSize ∧
    (∃ k, (buf.append block).buffer = buf.buffer.drop k ++ [block]) ∧
    (buf.append block).totalSize ≤ max buf.maxSize (estimateSize block) ∧
    (estimateSize block ≤ buf.maxSize → (buf.append block).totalSize ≤ buf.maxSize) ∧
    (buf.maxSize < estimateSize block → (buf.append block).buffer = [block]) := by
  obtain ⟨k, hk, hor⟩ :=
    evictLoop_spec buf.maxSize (estimateSize block) buf.buffer buf.totalSize hwf
  have happ : buf.append block =
      { buf with buffer := buf.buffer.drop k ++ [block],
                 totalSize := sumSizes (buf.buffer.drop k) + estimateSize block } := by
    simp only [OutputBuffer.append, hk]
  rw [happ]
  refine ⟨?_, rfl, ⟨k, rfl⟩, ?_, ?_, ?_⟩
  · simp [bufWF, sumSizes_append, sumSizes_cons, sumSizes_nil]
  · rcases hor with h | h
    · exact le_max_of_le_left h
    · rw [h, sumSizes_nil, Nat.zero_add]; exact le_max_right _ _
  · intro hfits
    rcases hor with h | h
    · exact h
    · rw [h, sumSizes_nil, Nat.zero_add]; exact hfits
  · intro hbig
    rcases hor with h | h
    · omega
    · simp [h]

/-- Source `appendAll` keeps the buffer well formed and the cap unchanged. -/
theorem appendAll_wf (c : Nat) (blocks : List OutputBlock) :
    bufWF (appendAll c blocks) ∧ (appendAll c blocks).maxSize = c := by
  have main : ∀ (bs : List OutputBlock) (buf : OutputBuffer), bufWF buf →
      bufWF (bs.foldl OutputBuffer.append buf) ∧
      (bs.foldl OutputBuffer.append buf).maxSize = buf.maxSize := by
    intro bs
    induction bs with
    | nil => intro buf h; exact ⟨h, rfl⟩
    | cons b rest ih =>
        intro buf h
        obtain ⟨hwf, hmax, _⟩ := append_spec buf b h
        obtain ⟨h1, h2⟩ := ih (buf.append b) hwf
        exact ⟨h1, h2.trans hmax⟩
  exact main blocks (OutputBuffer.mkEmpty c) rfl

/-! ### Claim C1 — output buffer cap -/

/-- An output block with empty content; its estimated size is the fixed
100-byte overhead. -/
def blankNormalBlock : OutputBlock := { type := .normal, content := "" }

/-- C1 counterexample: with cap 50, appending a single empty block (estimated
size 100) leaves the buffer's total estimated size at 100, above the cap —
the claimed invariant "after each append the total estimated size is at most
the cap" fails for a unit whose own estimated size exceeds the cap. -/
theorem buffer_cap_claim_counterexample :
    estimateSize blankNormalBlock = 100 ∧
    (appendAll 50 [blankNormalBlock]).totalSize = 100 ∧
    ¬ (appendAll 50 [blankNormalBlock]).totalSize ≤ 50 := by
  refine ⟨rfl, rfl, ?_⟩
  decide

/-- C1 (amended): for every sequence of appends on a buffer with cap `c`,
each append evicts a prefix of the queue (strictly oldest-first) and leaves
the total estimated size at most `max c (size of the appended unit)`; when
the appended unit itself fits under the cap the total stays at most `c`, and
a unit whose estimated size exceeds the cap empties the buffer for itself
(so only then may the total exceed `c`, by exactly that unit's size). -/
theorem buffer_append_cap_amended (c : Nat) (blocks : List OutputBlock) (block : OutputBlock) :
    (∃ k, (appendAll c (blocks ++ [block])).buffer =
        (appendAll c blocks).buffer.drop k ++ [block]) ∧
    (appendAll c (blocks ++ [block])).totalSize ≤ max c (estimateSize block) ∧
    (estimateSize block ≤ c → (appendAll c (blocks ++ [block])).totalSize ≤ c) ∧
    (c < estimateSize block → (appendAll c (blocks ++ [block])).buffer = [block]) := by
  have hfold : appendAll c (blocks ++ [block]) = (appendAll c blocks).append block := by
    simp [appendAll, List.foldl_append]
  obtain ⟨hwf, hmax⟩ := appendAll_wf c blocks
  obtain ⟨_, _, hdrop, hbound, hfits, hbig⟩ := append_spec (appendAll c blocks) block hwf
  rw [hmax] at hbound hfits hbig
  rw [hfold]
  exact ⟨hdrop, hbound, hfits, hbig⟩

/-- Witness for C1 (amended): two appends of 100-byte units under cap 200
keep the total at the cap or below; a single 100-byte unit under cap 50
empties the buffer for itself. -/
theorem buffer_append_cap_amended_witness :
    (appendAll 200 ([blankNormalBlock] ++ [blankNormalBlock])).totalSize ≤ 200 ∧
    (appendAll 50 ([] ++ [blankNormalBlock])).buffer = [blankNormalBlock] :=
  ⟨(buffer_append_cap_amended 200 [blankNormalBlock] blankNormalBlock).2.2.1 (by decide),
   (buffer_append_cap_amended 50 [] blankNormalBlock).2.2.2 (by decide)⟩

/-! ### Claim C4 — exit handling -/

/-- C4: for every process-exit notification delivered to a running session,
exit code 0 yields status Idle with the buffer untouched, any non-zero code
yields status Error with exactly one new synthetic Error unit appended at
the end of the buffer (older units at most evicted oldest-first), and the
adapter (process-handle) reference is cleared in both cases. -/
theorem handleExit_spec (s : SessionState) (code : Int) (_hrun : s.adapter.isSome) :
    (ClaudeSession.handleExit s code).adapter = none ∧
    (code = 0 → (ClaudeSession.handleExit s code).status = .idle ∧
        (ClaudeSession.handleExit s code).buffer = s.buffer) ∧
    (code ≠ 0 → (ClaudeSession.handleExit s code).status = .error ∧
        (processExitBlock code).type = .error ∧
        (ClaudeSession.handleExit s code).buffer = s.buffer.append (processExitBlock code) ∧
        ∃ k, (ClaudeSession.handleExit s code).buffer.buffer =
          s.buffer.buffer.drop k ++ [processExitBlock code]) := by
  unfold ClaudeSession.handleExit
  by_cases hc : code = 0
  · subst hc
    simp
  · rw [if_pos hc]
    refine ⟨rfl, fun h0 => absurd h0 hc, fun _ => ⟨rfl, rfl, rfl, ?_⟩⟩
    obtain ⟨k, hk⟩ := evictLoop_suffix s.buffer.maxSize (estimateSize (processExitBlock code))
      s.buffer.buffer s.buffer.totalSize
    exact ⟨k, by simp [OutputBuffer.append, hk]⟩

/-- A concrete running session used to witness the exit-handling theorem. -/
def c4Session : SessionState :=
  { initialSession "a" "/w" 300 with
      adapter := some ⟨"claude", "claude"⟩,
      status := .processing }

/-- Witness for C4 at a concrete running session: exit code 1 gives Error,
exit code 0 gives Idle, and the adapter is cleared. -/
theorem handleExit_spec_witness :
    (ClaudeSession.handleExit c4Session 1).status = .error ∧
    (ClaudeSession.handleExit c4Session 0).status = .idle ∧
    (ClaudeSession.handleExit c4Session 1).adapter = none :=
  ⟨((handleExit_spec c4Session 1 (by decide)).2.2 (by decide)).1,
   ((handleExit_spec c4Session 0 (by decide)).2.1 (by decide)).1,
   (handleExit_spec c4Session 1 (by decide)).1⟩

/-! ### Claim C2 — pending confirmation vs. status -/

/-- In every reachable session state, status WaitingConfirm implies that a
pending confirmation is stored (the forward direction of the claimed iff). -/
theorem reachable_status_pending (s : SessionState) (h : Reachable s) :
    s.status = .waitingConfirm → s.pendingConfirm ≠ none := by
  induction h with
  | init name workDir bufferSize =>
      intro hs
      simp [initialSession] at hs
  | start s tool executable o _ ih =>
      intro hs
      unfold ClaudeSession.startPost at hs ⊢
      by_cases ha : s.adapter.isSome
      · rw [if_pos ha] at hs ⊢
        exact ih hs
      · by_cases hreg : registeredTools.contains tool = true
        · rw [if_neg ha, if_pos hreg] at hs
          cases o with
          | ok => simp at hs
          | preFail => simp at hs
          | warmupExit code => simp at hs
          | warmupExitResolved code => simp at hs
        · rw [if_neg ha, if_neg hreg] at hs
          simp at hs
  | sendInput s input _ ih =>
      intro hs
      unfold ClaudeSession.sendInputPost at hs ⊢
      by_cases ha : s.adapter.isNone = true
      · rw [if_pos ha] at hs ⊢
        exact ih hs
      · rw [if_neg ha] at hs
        simp at hs
  | confirmResponse s _ ih =>
      intro hs
      rw [ClaudeSession.sendConfirmResponse] at hs ⊢
      cases hpc : s.pendingConfirm with
      | none => rw [hpc] at hs; exact ih hs
      | some pc => rw [hpc] at hs; simp at hs
  | output s block now _ ih =>
      rw [ClaudeSession.handleOutput]
      cases hbt : block.type
      · exact ih
      · intro _; simp
      · exact ih
      · exact ih
  | idleSignal s _ ih =>
      intro hs
      rw [ClaudeSession.handleIdle] at hs ⊢
      by_cases hst : s.status = .processing
      · rw [if_pos hst] at hs; simp at hs
      · rw [if_neg hst] at hs ⊢; exact ih hs
  | exit s code _ ih =>
      intro hs
      rw [ClaudeSession.handleExit] at hs
      by_cases hc : code = 0
      · rw [if_neg (by simp [hc])] at hs; simp at hs
      · rw [if_pos hc] at hs; simp at hs
  | close s _ ih =>
      intro hs
      simp [ClaudeSession.closePost] at hs

/-- C2 (amended): in every reachable session state the status WaitingConfirm
implies a stored PendingConfirm, and sending a confirm response always clears
the PendingConfirm and moves the session to Processing; but the converse
implication of the claimed iff does not hold, because neither process exit
nor close clears a stored PendingConfirm. -/
theorem session_pending_confirm_amended (s : SessionState) (h : Reachable s) :
    (s.status = .waitingConfirm → s.pendingConfirm ≠ none) ∧
    (∀ pc, s.pendingConfirm = some pc →
        (ClaudeSession.sendConfirmResponse s).pendingConfirm = none ∧
        (ClaudeSession.sendConfirmResponse s).status = .processing) :=
  ⟨reachable_status_pending s h,
   fun pc hpc => by rw [ClaudeSession.sendConfirmResponse, hpc]; exact ⟨rfl, rfl⟩⟩

/-- A fresh session used for the C2 trace. -/
def c2S0 : SessionState := initialSession "s" "/w" 65536

/-- The C2 trace after a successful start. -/
def c2S1 : SessionState := (ClaudeSession.startPost c2S0 "claude" "claude" .ok).2

/-- A classified Confirm block fed to the session in the C2 trace. -/
def c2ConfirmBlock : OutputBlock :=
  { type := .confirm, content := "[Y/N]", requiresConfirm := true,
    confirmOptions := some ["Y", "N"], confirmId := some "confirm_1" }

/-- The C2 trace after the Confirm block is handled. -/
def c2S2 : SessionState := ClaudeSession.handleOutput c2S1 c2ConfirmBlock 1

/-- The C2 trace after the process then exits with code 0. -/
def c2S3 : SessionState := ClaudeSession.handleExit c2S2 0

/-- C2 counterexample: a reachable state (start, Confirm output, process exit
with code 0) whose status is Idle while a PendingConfirm is still stored —
`handleExit` does not clear the pending confirmation, so the claimed iff
fails in the converse direction. -/
theorem session_pending_iff_counterexample :
    Reachable c2S3 ∧
    c2S3.status = .idle ∧
    c2S3.pendingConfirm.isSome = true ∧
    ¬ (c2S3.pendingConfirm.isSome = true ↔ c2S3.status = .waitingConfirm) := by
  refine ⟨?_, by decide, by decide, by decide⟩
  exact Reachable.exit c2S2 0
    (Reachable.output c2S1 c2ConfirmBlock 1
      (Reachable.start c2S0 "claude" "claude" .ok
        (Reachable.init "s" "/w" 65536)))

/-- Witness for C2 (amended) at the reachable waiting state of the trace:
the pending confirmation is present and a confirm response clears it. -/
theorem session_pending_confirm_amended_witness :
    (c2S2.status = .waitingConfirm → c2S2.pendingConfirm ≠ none) ∧
    (ClaudeSession.sendConfirmResponse c2S2).pendingConfirm = none ∧
    (ClaudeSession.sendConfirmResponse c2S2).status = .processing := by
  have h := session_pending_confirm_amended c2S2
    (Reachable.output c2S1 c2ConfirmBlock 1
      (Reachable.start c2S0 "claude" "claude" .ok (Reachable.init "s" "/w" 65536)))
  exact ⟨h.1, h.2 ⟨"confirm_1", ["Y", "N"]⟩ (by decide)⟩

/-! ### Claim C5 — bracketed confirm classification -/

/-- C5: classifying the chunk `[Y/N]` yields exactly one Confirm unit with
options `Y`, `N`, and classifying `[2-4]` yields exactly one Confirm unit
with the expanded options `2`, `3`, `4`; in both cases the unit list contains
no Normal or Error unit. -/
theorem classify_bracket_confirms :
    OutputParser.parse "[Y/N]" 0 =
      [{ type := .confirm, content := "[Y/N]", requiresConfirm := true,
         confirmOptions := some ["Y", "N"], confirmId := some "confirm_0" }] ∧
    OutputParser.parse "[2-4]" 0 =
      [{ type := .confirm, content := "[2-4]", requiresConfirm := true,
         confirmOptions := some ["2", "3", "4"], confirmId := some "confirm_0" }] := by
  constructor <;> decide

/-! ### Claim C7 — arrow-marked interactive selection -/

/-- The C7 input chunk: a prompt line, an arrow-marked option, an indented
second option and a hint phrase. -/
def c7Input : String :=
  "Do you want to trust this workspace?\n❯ Yes, proceed\n  No, abort\nEnter to confirm"

/-- C7: classifying the arrow-selection chunk yields exactly one unit, a
Confirm unit whose ordered option list is exactly
`Yes, proceed`, `No, abort`. -/
theorem classify_arrow_selection :
    (OutputParser.parse c7Input 0).map (fun b => (b.type, b.confirmOptions)) =
      [(OutputType.confirm, some ["Yes, proceed", "No, abort"])] := by
  decide

/-! ### Claim C6 — interactive-selection gating conditions -/

/-- Unpacking the string wrapper: mapping back to character lists is the
identity. -/
theorem map_data_mk (l : List (List Char)) :
    List.map String.data (List.map (fun o => (⟨o⟩ : String)) l) = l := by
  induction l with
  | nil => rfl
  | cons a t ih => rw [List.map_cons, List.map_cons, ih]

/-- C6: an interactive selection is produced only with at least two collected
options and either a hint phrase in the normalized text or an option that
lexically resembles a confirm/cancel choice; and a chunk whose normalized
text contains a free-text-input hint is never classified as an interactive
selection. -/
theorem detect_interactive_requirements :
    (∀ (data : String) (now : Nat) (sel : OutputParser.InteractiveSelect),
        OutputParser.detectInteractiveSelect data now = some sel →
        2 ≤ sel.options.length ∧
          (OutputParser.hasConfirmHintL (OutputParser.stripAnsiL data.data) = true ∨
            OutputParser.hasConfirmKeywordsL (sel.options.map String.data) = true)) ∧
    (∀ (data : String) (now : Nat) (sel : OutputParser.InteractiveSelect),
        OutputParser.detectInteractiveSelect data now = some sel →
        OutputParser.parse data now =
          [{ type := .confirm,
             content := ⟨trimL (OutputParser.formatInteractiveSelect sel).data⟩,
             requiresConfirm := true, confirmOptions := some sel.options,
             confirmId := some sel.id }]) ∧
    (∀ (data : String) (now : Nat),
        OutputParser.freeTextHintL (OutputParser.stripAnsiL data.data) = true →
        OutputParser.detectInteractiveSelect data now = none) := by
  refine ⟨?_, ?_, ?_⟩
  · intro data now sel h
    unfold OutputParser.detectInteractiveSelect at h
    by_cases hft : OutputParser.freeTextHintL (OutputParser.stripAnsiL data.data) = true
    · rw [if_pos hft] at h
      exact absurd h (by simp)
    · rw [if_neg hft] at h
      dsimp only at h
      set hint := OutputParser.hasConfirmHintL (OutputParser.stripAnsiL data.data) with hhint
      set st := OutputParser.selScan hint [] (splitLines (OutputParser.stripAnsiL data.data))
        (⟨[], 0, [], false⟩ : OutputParser.SelScanState) with hst
      clear_value hint st
      split at h
      · next hcond =>
          obtain ⟨hlen, hdisj⟩ := hcond
          injection h with h
          subst h
          constructor
          · simpa using hlen
          · rcases hdisj with hd | hd
            · exact Or.inl hd
            · refine Or.inr ?_
              rw [map_data_mk]
              exact hd
      · exact absurd h (by simp)
  · intro data now sel h
    unfold OutputParser.parse
    rw [h]
  · intro data now hft
    unfold OutputParser.detectInteractiveSelect
    rw [if_pos hft]

/-- The interactive selection detected for the C7 input. -/
def c7Sel : OutputParser.InteractiveSelect :=
  { id := "interactive_0", prompt := "Do you want to trust this workspace?",
    options := ["Yes, proceed", "No, abort"], selectedIndex := 0 }

/-- Witness for C6: the C7 chunk is detected as an interactive selection and
satisfies the gating conditions, while a chunk containing the free-text hint
`tab to cycle` is rejected. -/
theorem detect_interactive_requirements_witness :
    (2 ≤ c7Sel.options.length ∧
      (OutputParser.hasConfirmHintL (OutputParser.stripAnsiL c7Input.data) = true ∨
        OutputParser.hasConfirmKeywordsL (c7Sel.options.map String.data) = true)) ∧
    OutputParser.parse c7Input 0 =
      [{ type := .confirm,
         content := ⟨trimL (OutputParser.formatInteractiveSelect c7Sel).data⟩,
         requiresConfirm := true, confirmOptions := some c7Sel.options,
         confirmId := some c7Sel.id }] ∧
    OutputParser.detectInteractiveSelect "tab to cycle" 0 = none :=
  ⟨detect_interactive_requirements.1 c7Input 0 c7Sel (by decide),
   detect_interactive_requirements.2.1 c7Input 0 c7Sel (by decide),
   detect_interactive_requirements.2.2 "tab to cycle" 0 (by decide)⟩

/-! ### Claim C8 — duplicate-name creation -/

/-- C8: when the registry holds a session named `name` and the session count
is below the configured maximum, `createSession` fails with the
already-exists error and returns with the whole registry state — sessions
and every channel binding — exactly as before. -/
theorem createSession_alreadyExists (m : ManagerState) (cfg : ManagerConfig)
    (name workDir chatId : String) (cliTool : Option String) (o : StartOutcome)
    (hcap : m.sessions.length < cfg.maxSessions)
    (hname : (lookupA m.sessions name).isSome = true) :
    SessionManager.createSession m cfg name workDir chatId cliTool o =
      (some .alreadyExists, m) := by
  unfold SessionManager.createSession
  rw [if_neg (Nat.not_le.mpr hcap), if_pos hname]

/-- A registry holding one session, bound and active on channel `c`. -/
def w8M : ManagerState :=
  { sessions := [("a", initialSession "a" "/w" 100)],
    chatSessions := [("c", ["a"])],
    chatActiveSession := [("c", "a")],
    activeSession := some "a" }

/-- A manager configuration with capacity 10 and claude as default tool. -/
def w8Cfg : ManagerConfig := ⟨10, 100, some "claude", some "claude", some "opencode"⟩

/-- Witness for C8: creating `a` again in a registry that already holds `a`
(below capacity) fails with already-exists and leaves the state untouched. -/
theorem createSession_alreadyExists_witness :
    SessionManager.createSession w8M w8Cfg "a" "/w2" "c" none .ok =
      (some .alreadyExists, w8M) :=
  createSession_alreadyExists w8M w8Cfg "a" "/w2" "c" none .ok (by decide) (by decide)

/-! ### Claim C10 — capacity checked before name uniqueness -/

/-- C10: with the registry at (or above) the configured maximum,
`createSession` fails with the capacity error — the capacity check runs
before the name-uniqueness check, so this holds for any requested name,
duplicate or not — and the registry state is returned unchanged. -/
theorem createSession_capacity_first (m : ManagerState) (cfg : ManagerConfig)
    (name workDir chatId : String) (cliTool : Option String) (o : StartOutcome)
    (hcap : cfg.maxSessions ≤ m.sessions.length) :
    SessionManager.createSession m cfg name workDir chatId cliTool o =
      (some .capacityExceeded, m) := by
  unfold SessionManager.createSession
  rw [if_pos hcap]

/-- A configuration whose capacity of 1 is already reached by `w8M`. -/
def w10Cfg : ManagerConfig := ⟨1, 100, some "claude", some "claude", some "opencode"⟩

/-- Witness for C10: at capacity 1 with `a` registered, creating `a` again
fails with the capacity error (although the name is a duplicate) and the
maps are unchanged. -/
theorem createSession_capacity_first_witness :
    SessionManager.createSession w8M w10Cfg "a" "/w" "c" none .ok =
      (some .capacityExceeded, w8M) ∧
    (lookupA w8M.sessions "a").isSome = true :=
  ⟨createSession_capacity_first w8M w10Cfg "a" "/w" "c" none .ok (by decide), by decide⟩

/-! ### Claim C3 — restart protocol -/

/-- The session state `restartSession` produces for an Error session with a
cleared adapter when the relaunch succeeds: started with the configuration's
default tool. -/
def restartedSession (cfg : ManagerConfig) (sess : SessionState) : SessionState :=
  { sess with
      adapter := some ⟨resolveDefaultTool cfg, resolveExecutable cfg (resolveDefaultTool cfg)⟩,
      status := .idle }

/-- C3 (amended): `restartSession` on a session whose status is not Error
fails with the restart rejection and leaves the registry (hence the
session's status) unchanged; on a session in Error status with a cleared
adapter reference it re-invokes the launch protocol — but for the
configuration's default tool, which need not be the tool the session was
originally created with — and succeeds when that relaunch succeeds. -/
theorem restartSession_spec (m : ManagerState) (cfg : ManagerConfig) (name : String)
    (o : StartOutcome) (sess : SessionState)
    (hs : lookupA m.sessions name = some sess) :
    (sess.status ≠ .error →
      SessionManager.restartSession m cfg name o = (some .restartRejected, m)) ∧
    (sess.status = .error → sess.adapter = none →
      registeredTools.contains (resolveDefaultTool cfg) = true →
      SessionManager.restartSession m cfg name .ok =
        (none, { m with sessions := setA m.sessions name (restartedSession cfg sess) })) := by
  constructor
  · intro hne
    simp only [SessionManager.restartSession, hs]
    rw [if_pos hne]
  · intro herr hadapt hreg
    have hmem : resolveDefaultTool cfg ∈ registeredTools := by simpa using hreg
    simp only [SessionManager.restartSession, hs]
    rw [if_neg (by simp [herr])]
    simp [ClaudeSession.startPost, hadapt, hmem, restartedSession]

/-- The configuration used in the C3 scenario: claude is the default tool. -/
def c3Cfg : ManagerConfig := ⟨10, 100, some "claude", some "claude", some "opencode"⟩

/-- C3 scenario: a session created with the opencode tool explicitly. -/
def c3M1 : ManagerState :=
  (SessionManager.createSession ManagerState.empty c3Cfg "s" "/w" "chat"
    (some "opencode") .ok).2

/-- C3 scenario: the registered session after its process exits with code 1
(status Error, adapter cleared by `handleExit`). -/
def c3CrashSess : SessionState :=
  ClaudeSession.handleExit ((lookupA c3M1.sessions "s").getD (initialSession "s" "/w" 100)) 1

/-- C3 scenario: the registry after the crash notification. -/
def c3M2 : ManagerState :=
  { c3M1 with sessions := setA c3M1.sessions "s" c3CrashSess }

/-- C3 scenario: the restart call and its result. -/
def c3R : Option MgrErr × ManagerState :=
  SessionManager.restartSession c3M2 c3Cfg "s" .ok

/-- C3 counterexample: the session was originally launched with the opencode
protocol; after it crashes, `restartSession` succeeds but re-launches with
the claude protocol (the configuration default) — not the original launch
protocol of that session. -/
theorem restartSession_original_protocol_counterexample :
    (lookupA c3M1.sessions "s").map SessionState.adapter =
      some (some ⟨"opencode", "opencode"⟩) ∧
    (lookupA c3M2.sessions "s").map SessionState.status = some SessionStatus.error ∧
    c3R.1 = none ∧
    (lookupA c3R.2.sessions "s").map SessionState.adapter =
      some (some ⟨"claude", "claude"⟩) ∧
    (⟨"claude", "claude"⟩ : AdapterSpec) ≠ ⟨"opencode", "opencode"⟩ := by
  decide

/-- A session already in Error status with a cleared adapter. -/
def c3WSessErr : SessionState := { initialSession "a" "/w" 100 with status := .error }

/-- A healthy Idle session. -/
def c3WSessIdle : SessionState := initialSession "b" "/w" 100

/-- A registry holding the crashed session `a` and the healthy session `b`. -/
def c3WM : ManagerState :=
  { sessions := [("a", c3WSessErr), ("b", c3WSessIdle)],
    chatSessions := [("c", ["a", "b"])],
    chatActiveSession := [("c", "a")],
    activeSession := some "a" }

/-- Witness for C3 (amended): restarting the Idle session is rejected with
the state unchanged; restarting the crashed session relaunches it with the
configured default tool. -/
theorem restartSession_spec_witness :
    SessionManager.restartSession c3WM c3Cfg "b" .ok = (some .restartRejected, c3WM) ∧
    SessionManager.restartSession c3WM c3Cfg "a" .ok =
      (none, { c3WM with sessions := setA c3WM.sessions "a" (restartedSession c3Cfg c3WSessErr) }) :=
  ⟨(restartSession_spec c3WM c3Cfg "b" .ok c3WSessIdle (by decide)).1 (by decide),
   (restartSession_spec c3WM c3Cfg "a" .ok c3WSessErr (by decide)).2
     (by decide) (by decide) (by decide)⟩

/-! ### Association-list lemmas for the registry maps -/

theorem lookupA_eq_none_of_not_mem {α : Type} (l : List (String × α)) (k : String)
    (h : k ∉ l.map Prod.fst) : lookupA l k = none := by
  induction l with
  | nil => rfl
  | cons p rest ih =>
      obtain ⟨a, b⟩ := p
      simp only [List.map_cons, List.mem_cons] at h
      push_neg at h
      rw [lookupA, if_neg (fun hh => h.1 hh.symm)]
      exact ih h.2

theorem lookupA_setA_self {α : Type} (l : List (String × α)) (k : String) (v : α) :
    lookupA (setA l k v) k = some v := by
  induction l with
  | nil => simp [setA, lookupA]
  | cons p rest ih =>
      obtain ⟨a, b⟩ := p
      by_cases ha : a = k
      · simp [setA, ha, lookupA]
      · simp [setA, ha, lookupA, ih]

theorem lookupA_setA_ne {α : Type} (l : List (String × α)) (k' k : String) (v : α)
    (h : k' ≠ k) : lookupA (setA l k' v) k = lookupA l k := by
  induction l with
  | nil => simp [setA, lookupA, h]
  | cons p rest ih =>
      obtain ⟨a, b⟩ := p
      by_cases ha : a = k'
      · subst ha
        simp [setA, lookupA, h]
      · simp [setA, ha, lookupA, ih]

theorem lookupA_eraseA_ne {α : Type} (l : List (String × α)) (k' k : String)
    (h : k' ≠ k) : lookupA (eraseA l k') k = lookupA l k := by
  induction l with
  | nil => rfl
  | cons p rest ih =>
      obtain ⟨a, b⟩ := p
      by_cases ha : a = k'
      · subst ha
        simp [eraseA, lookupA, h]
      · simp [eraseA, ha, lookupA, ih]

theorem keys_eraseA_sub {α : Type} (l : List (String × α)) (k x : String)
    (h : x ∈ (eraseA l k).map Prod.fst) : x ∈ l.map Prod.fst := by
  induction l with
  | nil => simp [eraseA] at h
  | cons p rest ih =>
      obtain ⟨a, b⟩ := p
      rw [List.map_cons, List.mem_cons]
      by_cases ha : a = k
      · simp only [eraseA, if_pos ha] at h
        exact Or.inr h
      · simp only [eraseA, if_neg ha, List.map_cons, List.mem_cons] at h
        rcases h with h | h
        · exact Or.inl h
        · exact Or.inr (ih h)

theorem keysNodup_eraseA {α : Type} (l : List (String × α)) (k : String)
    (h : (l.map Prod.fst).Nodup) : ((eraseA l k).map Prod.fst).Nodup := by
  induction l with
  | nil => simp [eraseA]
  | cons p rest ih =>
      obtain ⟨a, b⟩ := p
      rw [List.map_cons, List.nodup_cons] at h
      by_cases ha : a = k
      · simp only [eraseA, if_pos ha]
        exact h.2
      · simp only [eraseA, if_neg ha, List.map_cons, List.nodup_cons]
        exact ⟨fun hm => h.1 (keys_eraseA_sub rest k a hm), ih h.2⟩

theorem keys_setA_sub {α : Type} (l : List (String × α)) (k : String) (v : α)
    (x : String) (h : x ∈ (setA l k v).map Prod.fst) :
    x ∈ l.map Prod.fst ∨ x = k := by
  induction l with
  | nil => simpa [setA] using h
  | cons p rest ih =>
      obtain ⟨a, b⟩ := p
      rw [List.map_cons, List.mem_cons]
      by_cases ha : a = k
      · simp only [setA, if_pos ha, List.map_cons, List.mem_cons] at h
        rcases h with h | h
        · exact Or.inr (h.trans ha.symm ▸ h)
        · exact Or.inl (Or.inr h)
      · simp only [setA, if_neg ha, List.map_cons, List.mem_cons] at h
        rcases h with h | h
        · exact Or.inl (Or.inl h)
        · rcases ih h with h' | h'
          · exact Or.inl (Or.inr h')
          · exact Or.inr h'

theorem keysNodup_setA {α : Type} (l : List (String × α)) (k : String) (v : α)
    (h : (l.map Prod.fst).Nodup) : ((setA l k v).map Prod.fst).Nodup := by
  induction l with
  | nil => simp [setA]
  | cons p rest ih =>
      obtain ⟨a, b⟩ := p
      rw [List.map_cons, List.nodup_cons] at h
      by_cases ha : a = k
      · simp only [setA, if_pos ha, List.map_cons, List.nodup_cons]
        exact ⟨ha ▸ h.1, h.2⟩
      · simp only [setA, if_neg ha, List.map_cons, List.nodup_cons]
        refine ⟨fun hm => ?_, ih h.2⟩
        rcases keys_setA_sub rest k v a hm with h' | h'
        · exact h.1 h'
        · exact ha h'

theorem lookupA_eraseA_self {α : Type} (l : List (String × α)) (k : String)
    (h : (l.map Prod.fst).Nodup) : lookupA (eraseA l k) k = none := by
  induction l with
  | nil => rfl
  | cons p rest ih =>
      obtain ⟨a, b⟩ := p
      rw [List.map_cons, List.nodup_cons] at h
      by_cases ha : a = k
      · simp only [eraseA, if_pos ha]
        subst ha
        exact lookupA_eq_none_of_not_mem rest a h.1
      · simp [eraseA, ha, lookupA, ih h.2]

theorem lookupA_map_erase (l : List (String × List String)) (name k : String) :
    lookupA (l.map (fun p => (p.1, p.2.erase name))) k =
      (lookupA l k).map (fun ss => ss.erase name) := by
  induction l with
  | nil => rfl
  | cons p rest ih =>
      obtain ⟨a, b⟩ := p
      by_cases ha : a = k
      · simp [lookupA, ha]
      · simp [lookupA, ha, ih]

/-! ### Lemmas about the per-chat unbinding loop -/

/-- The loop returns the chat→sessions map with `name` deleted from every
set and all entries (keys, order, empty sets included) kept in place. -/
theorem closeChatLoop_fst (name : String) (cs : List (String × List String)) :
    ∀ act, (closeChatLoop name cs act).1 = cs.map (fun p => (p.1, p.2.erase name)) := by
  induction cs with
  | nil => intro act; rfl
  | cons p rest ih =>
      intro act
      obtain ⟨cid, ss⟩ := p
      simp [closeChatLoop, ih]

/-- Chats not in the processed list never change the active binding of `c`. -/
theorem closeChatLoop_act_preserved (name c : String) :
    ∀ (cs : List (String × List String)) (act : List (String × String)),
      c ∉ cs.map Prod.fst →
      lookupA (closeChatLoop name cs act).2 c = lookupA act c := by
  intro cs
  induction cs with
  | nil => intro act _; rfl
  | cons p rest ih =>
      intro act h
      obtain ⟨cid, ss⟩ := p
      rw [List.map_cons, List.mem_cons] at h
      push_neg at h
      simp only [closeChatLoop]
      rw [ih _ h.2]
      by_cases hcond : lookupA act cid = some name
      · rw [if_pos hcond]
        cases hss : ss.erase name with
        | nil => exact lookupA_eraseA_ne act cid c (Ne.symm h.1)
        | cons f t => exact lookupA_setA_ne act cid c f (Ne.symm h.1)
      · rw [if_neg hcond]

/-- The loop's effect on the active binding of a chat `c` whose active
session is the closed `name`: the first remaining bound session is promoted,
or the binding is cleared when none remain. -/
theorem closeChatLoop_act_spec (name c : String) (cset : List String) :
    ∀ (cs : List (String × List String)) (act : List (String × String)),
      (cs.map Prod.fst).Nodup →
      (act.map Prod.fst).Nodup →
      lookupA cs c = some cset →
      lookupA act c = some name →
      (cset.erase name = [] → lookupA (closeChatLoop name cs act).2 c = none) ∧
      (∀ f t, cset.erase name = f :: t →
          lookupA (closeChatLoop name cs act).2 c = some f) := by
  intro cs
  induction cs with
  | nil =>
      intro act _ _ hlc _
      exact absurd hlc (by simp [lookupA])
  | cons p rest ih =>
      intro act hkeys hakeys hlc hla
      obtain ⟨cid, ss⟩ := p
      rw [List.map_cons, List.nodup_cons] at hkeys
      by_cases hc : cid = c
      · subst hc
        rw [lookupA, if_pos rfl] at hlc
        injection hlc with hlc
        subst hlc
        simp only [closeChatLoop]
        rw [if_pos hla]
        constructor
        · intro hnil
          rw [hnil]
          rw [closeChatLoop_act_preserved name cid rest _ hkeys.1]
          exact lookupA_eraseA_self act cid hakeys
        · intro f t hft
          rw [hft]
          rw [closeChatLoop_act_preserved name cid rest _ hkeys.1]
          exact lookupA_setA_self act cid f
      · rw [lookupA, if_neg hc] at hlc
        simp only [closeChatLoop]
        by_cases hcond : lookupA act cid = some name
        · rw [if_pos hcond]
          cases hss : ss.erase name with
          | nil =>
              exact ih (eraseA act cid) hkeys.2 (keysNodup_eraseA act cid hakeys) hlc
                (by rw [lookupA_eraseA_ne act cid c hc]; exact hla)
          | cons f t =>
              exact ih (setA act cid f) hkeys.2 (keysNodup_setA act cid f hakeys) hlc
                (by rw [lookupA_setA_ne act cid c f hc]; exact hla)
        · rw [if_neg hcond]
          exact ih act hkeys.2 hakeys hlc hla

/-! ### Claim C9 — closing a channel's active session -/

/-- C9: when `closeSession` closes the session that is channel `c`'s active
session, afterwards the closed name is unbound from every channel; `c`'s
bound set is exactly the old set minus the closed name; if other sessions
remain bound to `c` one of them (the first remaining) is `c`'s active
session; and if none remain `c` has no active session. -/
theorem closeSession_promotes_active (m : ManagerState) (name c : String)
    (cset : List String)
    (hkeys : (m.chatSessions.map Prod.fst).Nodup)
    (hsets : ∀ p ∈ m.chatSessions, List.Nodup p.2)
    (hakeys : (m.chatActiveSession.map Prod.fst).Nodup)
    (hsess : (lookupA m.sessions name).isSome = true)
    (hchat : lookupA m.chatSessions c = some cset)
    (hactive : lookupA m.chatActiveSession c = some name) :
    (SessionManager.closeSession m name).1 = none ∧
    (∀ p ∈ (SessionManager.closeSession m name).2.chatSessions, name ∉ p.2) ∧
    lookupA (SessionManager.closeSession m name).2.chatSessions c =
      some (cset.erase name) ∧
    (∀ f t, cset.erase name = f :: t →
        lookupA (SessionManager.closeSession m name).2.chatActiveSession c = some f ∧
        f ∈ cset.erase name) ∧
    (cset.erase name = [] →
        lookupA (SessionManager.closeSession m name).2.chatActiveSession c = none) := by
  obtain ⟨sess, hs⟩ := Option.isSome_iff_exists.mp hsess
  have hcs : (SessionManager.closeSession m name).2.chatSessions =
      m.chatSessions.map (fun p => (p.1, p.2.erase name)) := by
    simp only [SessionManager.closeSession, hs]
    exact closeChatLoop_fst name m.chatSessions m.chatActiveSession
  have hact : (SessionManager.closeSession m name).2.chatActiveSession =
      (closeChatLoop name m.chatSessions m.chatActiveSession).2 := by
    simp only [SessionManager.closeSession, hs]
  have hspec := closeChatLoop_act_spec name c cset m.chatSessions m.chatActiveSession
    hkeys hakeys hchat hactive
  refine ⟨?_, ?_, ?_, ?_, ?_⟩
  · simp only [SessionManager.closeSession, hs]
  · intro p hp
    rw [hcs] at hp
    obtain ⟨q, hq, rfl⟩ := List.mem_map.mp hp
    intro hmem
    exact (((hsets q hq).mem_erase_iff).mp hmem).1 rfl
  · rw [hcs, lookupA_map_erase, hchat]
    rfl
  · intro f t hft
    rw [hact]
    exact ⟨hspec.2 f t hft, by rw [hft]; exact List.mem_cons_self f t⟩
  · intro hnil
    rw [hact]
    exact hspec.1 hnil

/-- A registry with two sessions both bound to channel `c`, `a` active. -/
def w9M : ManagerState :=
  { sessions := [("a", initialSession "a" "/wa" 100), ("b", initialSession "b" "/wb" 100)],
    chatSessions := [("c", ["a", "b"])],
    chatActiveSession := [("c", "a")],
    activeSession := some "a" }

/-- Witness for C9: closing the active session `a` of channel `c` leaves `b`
bound and promotes `b` to `c`'s active session. -/
theorem closeSession_promotes_active_witness :
    (SessionManager.closeSession w9M "a").1 = none ∧
    lookupA (SessionManager.closeSession w9M "a").2.chatSessions "c" =
      some ((["a", "b"] : List String).erase "a") ∧
    lookupA (SessionManager.closeSession w9M "a").2.chatActiveSession "c" = some "b" ∧
    "b" ∈ (["a", "b"] : List String).erase "a" :=
  have h := closeSession_promotes_active w9M "a" "c" ["a", "b"]
    (by decide) (by decide) (by decide) (by decide) (by decide) (by decide)
  ⟨h.1, h.2.2.1, (h.2.2.2.1 "b" [] (by decide)).1, (h.2.2.2.1 "b" [] (by decide)).2⟩

end CliBot
